import Mathlib

/-!
Shallow embedding of the computational-geometry core of smartmet-shapetools
(Point, Edge, Edges, Nodes, Polygon, PointSelector), translated from
src/include/*.h and src/source/*.cpp.  Doubles are modelled as rationals;
the external collaborators (NFmiArea projection, NFmiNearTree spatial index)
are modelled as explicit parameters per their documented contracts.
-/

/-- A plane or geographic point: the `(x, y)` pair of `Point.h`. -/
abbrev Pt := ℚ × ℚ

/-- Squared Euclidean distance between two plane points (the square of
`Point::distance` from Point.h). -/
def distSq (p q : Pt) : ℚ :=
  (p.1 - q.1) * (p.1 - q.1) + (p.2 - q.2) * (p.2 - q.2)

/-! ## Edge (src/include/Edge.h) -/

/-- An edge: a pair of indices stored with the smaller first (Edge.h). -/
structure Edge where
  itsIndex1 : ℤ
  itsIndex2 : ℤ
deriving DecidableEq, Repr

/-- The `Edge(idx1, idx2)` constructor of Edge.h:
`itsIndex1 = idx1 < idx2 ? idx1 : idx2`, `itsIndex2 = idx1 > idx2 ? idx1 : idx2`. -/
def Edge.make (idx1 idx2 : ℤ) : Edge :=
  { itsIndex1 := if idx1 < idx2 then idx1 else idx2
    itsIndex2 := if idx1 > idx2 then idx1 else idx2 }

/-! ## Edges (src/include/Edges.h): a set of unique edges, modelled as the
list of inserted elements with set-insert semantics. -/

/-- The state of an `Edges` container: the distinct edges inserted so far. -/
structure Edges where
  itsData : List Edge
deriving Repr

/-- Membership test of `Edges::contains` (std::set find). -/
def Edges.contains (s : Edges) (e : Edge) : Bool :=
  s.itsData.contains e

/-- Method `Edges::add`: std::set insert, returning true iff the edge is new. -/
def Edges.add (s : Edges) (e : Edge) : Bool × Edges :=
  if s.itsData.contains e then (false, s) else (true, ⟨e :: s.itsData⟩)

/-! ## Nodes (src/source/Nodes.cpp) -/

/-- The state of a `Nodes` registry: `itsData` maps each distinct Point to
`(ordinal, owner id)` (the std::map, kept here in insertion order, which the
lookups do not observe), and `itsOrderedData` is the ordinal-indexed vector. -/
structure Nodes where
  itsData : List (Pt × ℕ × ℤ)
  itsOrderedData : List Pt

/-- The empty registry (`Nodes` default constructor). -/
def Nodes.empty : Nodes := ⟨[], []⟩

/-- Internal lookup in the std::map keyed by Point. -/
def Nodes.find (n : Nodes) (pt : Pt) : Option (ℕ × ℤ) :=
  (n.itsData.find? (fun e => e.1 = pt)).map (fun e => e.2)

/-- Method `Nodes::add`: insert `(pt, (size+1, theId))` if absent, keep the existing
entry otherwise; push to the ordinal vector when the index is fresh. -/
def Nodes.add (n : Nodes) (pt : Pt) (theId : ℤ) : ℕ × Nodes :=
  match n.find pt with
  | some v => (v.1, n)
  | none =>
    let idx := n.itsData.length + 1
    let d := n.itsData ++ [(pt, idx, theId)]
    let o := if idx > n.itsOrderedData.length then n.itsOrderedData ++ [pt]
             else n.itsOrderedData
    (idx, ⟨d, o⟩)

/-- Method `Nodes::number`: the ordinal of a point, 0 if absent. -/
def Nodes.number (n : Nodes) (pt : Pt) : ℕ :=
  match n.find pt with
  | some v => v.1
  | none => 0

/-- Method `Nodes::id`: the owner id of a point, 0 if absent. -/
def Nodes.id (n : Nodes) (pt : Pt) : ℤ :=
  match n.find pt with
  | some v => v.2
  | none => 0

/-- Method `Nodes::point`: the point with the given ordinal, `(0,0)` out of range. -/
def Nodes.point (n : Nodes) (ordinal : ℤ) : Pt :=
  if ordinal ≤ 0 ∨ ordinal > (n.itsOrderedData.length : ℤ) then (0, 0)
  else n.itsOrderedData.getD (ordinal.toNat - 1) (0, 0)

/-- Fold a sequence of `add` calls over a registry. -/
def Nodes.addAll (n : Nodes) (calls : List (Pt × ℤ)) : Nodes :=
  calls.foldl (fun st c => (st.add c.1 c.2).2) n

/-! ## Polygon (src/source/Polygon.cpp) -/

/-- The state of a `Polygon`: its mutable point ring `itsData`. -/
structure Polygon where
  itsData : List Pt
deriving DecidableEq, Repr

/-- The closing step of `Polygon::close`: if the ring is nonempty and its
first and last points differ, append the first point. -/
def polyClose : List Pt → List Pt
  | [] => []
  | x :: xs => if (x :: xs).getLastD x ≠ x then (x :: xs) ++ [x] else x :: xs

/-- Method `Polygon::close` as a state transformer (the C++ method mutates
`itsData` in place; here the closed polygon is returned). -/
def Polygon.close (p : Polygon) : Polygon := ⟨polyClose p.itsData⟩

/-- The shoelace accumulation loop of `Polygon::area`:
`sum += x[i]*y[i+1] - x[i+1]*y[i]` over consecutive pairs. -/
def shoeSum : List Pt → ℚ
  | [] => 0
  | a :: t =>
    match t with
    | [] => 0
    | b :: _ => (a.1 * b.2 - b.1 * a.2) + shoeSum t

/-- Method `Polygon::area`: close, return 0 for rings of ≤ 2 points, otherwise
`abs(0.5 * sum)` of the shoelace loop. -/
def Polygon.area (p : Polygon) : ℚ :=
  let c := (p.close).itsData
  if c.length ≤ 2 then 0 else |(1/2 : ℚ) * shoeSum c|

/-- The per-edge parity condition of `Polygon::isInside`:
`y > min(y1,y2) && y <= max(y1,y2) && x <= max(x1,x2) && y1 != y2 &&
(x1 == x2 || x < (y-y1)*(x2-x1)/(y2-y1)+x1)`. -/
def rayToggle (x y x1 y1 x2 y2 : ℚ) : Bool :=
  decide (y > min y1 y2 ∧ y ≤ max y1 y2 ∧ x ≤ max x1 x2 ∧ y1 ≠ y2 ∧
    (x1 = x2 ∨ x < (y - y1) * (x2 - x1) / (y2 - y1) + x1))

/-- The edge loop of `Polygon::isInside`: walk consecutive vertex pairs,
flipping the parity flag whenever the edge condition holds. -/
def rayLoop (x y : ℚ) : List Pt → Bool → Bool
  | [], ins => ins
  | p1 :: t, ins =>
    match t with
    | [] => ins
    | p2 :: _ => rayLoop x y t (if rayToggle x y p1.1 p1.2 p2.1 p2.2 then !ins else ins)

/-- Method `Polygon::isInside`: close, reject rings of ≤ 2 points, otherwise run
the even-odd ray-casting loop starting from `inside = false`. -/
def Polygon.isInside (p : Polygon) (pt : Pt) : Bool :=
  let c := (p.close).itsData
  if c.length ≤ 2 then false
  else rayLoop pt.1 pt.2 c false

/-- The barycentric-style sample `p = p1 + a1*(p2-p1) + (1-a1)*a2*(p3-p1)`
of `Polygon::someInsidePoint`. -/
def interpPoint (p1 p2 p3 : Pt) (a1 a2 : ℚ) : Pt :=
  (p1.1 + a1 * (p2.1 - p1.1) + (1 - a1) * a2 * (p3.1 - p1.1),
   p1.2 + a1 * (p2.2 - p1.2) + (1 - a1) * a2 * (p3.2 - p1.2))

/-- The triangle-scanning loop of `Polygon::someInsidePoint` over the closed
ring `c`.  `i` is the triangle index of the inner `for`, `iter` the running
iteration counter; returning `(none, k)` is the fatal `exit(1)` after the
iteration budget.  Two aspects of the C++ loop are parameters: `draws k`
gives the two `rand()`-derived scale factors of iteration `k`, and `skip k`
is the outcome of the shape-index test `L/sqrt(A) > shapelimit` at iteration
`k` (that comparison runs through irrational square roots of doubles, so it
is abstracted as an oracle; every theorem below holds for all oracles, hence
for the concrete comparison).  `fuel` only forces termination of the
`while(true)` loop in Lean; it exceeds the largest possible number of loop
entries (10000 iterations plus one restart per iteration plus slack), so the
`fuel = 0` branch is unreachable. -/
def scanTriangles (c : List Pt) (skip : ℕ → Bool) (draws : ℕ → ℚ × ℚ) :
    ℕ → ℕ → ℕ → Option Pt × ℕ
  | 0, _, iter => (none, iter)
  | fuel + 1, i, iter =>
    if i ≥ c.length - 2 then
      scanTriangles c skip draws fuel 0 iter
    else
      let iter1 := iter + 1
      if iter1 > 10000 then (none, iter1)
      else if skip iter1 then scanTriangles c skip draws fuel (i + 1) iter1
      else
        let a := draws iter1
        let tmp := interpPoint (c.getD i (0, 0)) (c.getD (i + 1) (0, 0))
            (c.getD (i + 2) (0, 0)) a.1 a.2
        if (Polygon.mk c).isInside tmp then (some tmp, iter1)
        else scanTriangles c skip draws fuel (i + 1) iter1

/-- Method `Polygon::someInsidePoint`: close; return the sentinel `(0,0)` for rings
of fewer than 3 points; otherwise scan consecutive vertex triples.  The
result pairs the returned point (`none` = the fatal abort) with the number
of iterations consumed. -/
def Polygon.someInsidePoint (p : Polygon) (skip : ℕ → Bool)
    (draws : ℕ → ℚ × ℚ) : Option Pt × ℕ :=
  let c := (p.close).itsData
  if c.length < 3 then (some (0, 0), 0)
  else scanTriangles c skip draws 30000 0 0

/-! ## PointSelector (src/source/PointSelector.cpp) -/

/-- The per-candidate payload `PointData` of PointSelector.cpp. -/
structure PointData where
  id : ℤ
  x : ℚ
  y : ℚ
deriving DecidableEq, Repr

/-- Insertion into the candidate multimap
(`multimap<double, PointData, greater<double>>`): entries are kept in
descending key order, and a new entry goes after existing equal keys. -/
def insertCand : List (ℚ × PointData) → ℚ → PointData → List (ℚ × PointData)
  | [], k, pd => [(k, pd)]
  | c :: t, k, pd =>
    if k > c.1 then (k, pd) :: c :: t
    else c :: insertCand t k pd

/-- The state of `PointSelector::Pimple`.  The projection collaborator
(`NFmiArea::ToXY`, external) is carried as the function field `itsArea`,
used only through its lat/lon ↦ plane-XY contract. -/
structure PointSelector where
  itsArea : ℚ × ℚ → ℚ × ℚ
  itsNegateFlag : Bool
  itsMinDistance : ℚ
  itsX1 : ℚ
  itsY1 : ℚ
  itsX2 : ℚ
  itsY2 : ℚ
  itsReduced : Bool
  itsCandidates : List (ℚ × PointData)
  itsResults : List ℤ

/-- Method `PointSelector::Pimple::add`: project, reject out-of-bounds candidates
with no state change, otherwise invalidate the cached reduction and insert
the (possibly negated) keyed candidate. -/
def PointSelector.add (s : PointSelector) (theID : ℤ)
    (theValue theLon theLat : ℚ) : Bool × PointSelector :=
  let xy := s.itsArea (theLon, theLat)
  if xy.1 < s.itsX1 ∨ xy.1 > s.itsX2 ∨ xy.2 < s.itsY1 ∨ xy.2 > s.itsY2 then
    (false, s)
  else
    let pd : PointData := ⟨theID, xy.1, xy.2⟩
    (true, { s with
      itsReduced := false
      itsResults := []
      itsCandidates :=
        if s.itsNegateFlag then insertCand s.itsCandidates (-theValue) pd
        else insertCand s.itsCandidates theValue pd })

/-- Modelled from the spec: the `NFmiNearTree` spatial index
(`ntree.NearestPoint(nearest, xy, itsMinDistance)`) is an external newbase
collaborator, not part of this repository.  Per the spec it answers "is
there an accepted point within distance `d` of this query point"; over the
accepted list that is an existence test, stated on squared Euclidean
distances (equivalent to `distance ≤ d` for `d ≥ 0`). -/
def nearAny (accepted : List PointData) (x y d : ℚ) : Bool :=
  accepted.any (fun q => distSq (q.x, q.y) (x, y) ≤ d * d)

/-- The loop of `PointSelector::Pimple::reduce`: walk the candidates in
stored (descending-priority) order; a candidate is accepted iff no earlier
accepted point lies within `minD`; accepted candidates enter both the result
order and the spatial index (here: the accepted list itself). -/
def reduceGo (minD : ℚ) : List (ℚ × PointData) → List PointData → List PointData
  | [], acc => acc
  | c :: t, acc =>
    if nearAny acc c.2.x c.2.y minD then reduceGo minD t acc
    else reduceGo minD t (acc ++ [c.2])

/-- The accepted candidates of a full reduction of the current state. -/
def PointSelector.accepted (s : PointSelector) : List PointData :=
  reduceGo s.itsMinDistance s.itsCandidates []

/-- Method `PointSelector::Pimple::reduce`: a no-op when the cache is valid, else
rebuild `itsResults` as the ids of the accepted candidates in acceptance
order and mark the cache valid. -/
def PointSelector.reduce (s : PointSelector) : PointSelector :=
  if s.itsReduced then s
  else { s with
    itsResults := (s.accepted).map PointData.id
    itsReduced := true }

/-- Fold a sequence of `add(id, value, lon, lat)` calls. -/
def PointSelector.addAll (s : PointSelector) (calls : List (ℤ × ℚ × ℚ × ℚ)) :
    PointSelector :=
  calls.foldl (fun st c => (st.add c.1 c.2.1 c.2.2.1 c.2.2.2).2) s

/-! ## Theorems -/

/-- C9: `Edge(a,b) == Edge(b,a)` for all integer indices, and adding
`Edge(a,b)` to any `Edges` set makes `contains (Edge(b,a))` true. -/
theorem edge_symmetry (a b : ℤ) :
    Edge.make a b = Edge.make b a ∧
    ∀ s : Edges, ((s.add (Edge.make a b)).2).contains (Edge.make b a) = true := by
  have hmk : Edge.make a b = Edge.make b a := by
    unfold Edge.make
    rcases lt_trichotomy a b with h | h | h
    · simp [h, not_lt.mpr (le_of_lt h), h.ne, lt_iff_le_and_ne]
    · simp [h]
    · simp [h, not_lt.mpr (le_of_lt h), (h.ne : b ≠ a) ]
  refine ⟨hmk, ?_⟩
  intro s
  rw [← hmk]
  unfold Edges.add Edges.contains
  by_cases h : Edge.make a b ∈ s.itsData
  · simp [h]
  · simp [h, List.contains_cons]

/-- Helper: `Nodes.find` on the state after an `add` of a different point is
unchanged. -/
theorem Nodes.find_add_ne (n : Nodes) (q : Pt) (jq : ℤ) (pt : Pt) (hne : q ≠ pt) :
    ((n.add q jq).2).find pt = n.find pt := by
  unfold Nodes.add
  cases hfq : n.find q with
  | some v => simp
  | none =>
    simp only
    unfold Nodes.find at *
    rw [List.find?_append]
    cases hf : n.itsData.find? (fun e => e.1 = pt) with
    | some w => simp [hf]
    | none => simp [hf, hne]

/-- C3: a Point not previously present gets ordinal `size + 1` and its owner
id is stored; re-adding a present Point returns its original ordinal and
leaves the registry (hence its stored owner id) unchanged, whatever owner id
is passed; adds of other points do not disturb the ordinal or id of a Point. -/
theorem nodes_add_first_seen (n : Nodes) (pt : Pt) (i j : ℤ) :
    (n.find pt = none →
      (n.add pt i).1 = n.itsData.length + 1 ∧
      ((n.add pt i).2).number pt = n.itsData.length + 1 ∧
      ((n.add pt i).2).id pt = i) ∧
    (∀ v, n.find pt = some v → n.add pt j = (v.1, n)) ∧
    (∀ q jq, q ≠ pt → ((n.add q jq).2).number pt = n.number pt ∧
      ((n.add q jq).2).id pt = n.id pt) := by
  refine ⟨?_, ?_, ?_⟩
  · intro hnone
    have hfind : ∀ o : List Pt,
        (Nodes.find ⟨n.itsData ++ [(pt, n.itsData.length + 1, i)], o⟩ pt)
          = some (n.itsData.length + 1, i) := by
      intro o
      unfold Nodes.find at *
      rw [List.find?_append]
      have : n.itsData.find? (fun e => e.1 = pt) = none := by
        cases hf : n.itsData.find? (fun e => e.1 = pt) with
        | none => rfl
        | some w => rw [hf] at hnone; simp at hnone
      simp [this]
    unfold Nodes.add
    simp only [hnone]
    refine ⟨trivial, ?_, ?_⟩
    · unfold Nodes.number
      simp [hfind]
    · unfold Nodes.id
      simp [hfind]
  · intro v hv
    unfold Nodes.add
    simp [hv]
  · intro q jq hne
    have h := Nodes.find_add_ne n q jq pt hne
    unfold Nodes.number Nodes.id
    rw [h]
    exact ⟨rfl, rfl⟩

/-- Witness for C3 at a concrete registry. -/
theorem nodes_add_first_seen_witness :
    (Nodes.empty.find ((1 : ℚ), (2 : ℚ)) = none →
      (Nodes.empty.add ((1 : ℚ), (2 : ℚ)) 7).1 = Nodes.empty.itsData.length + 1 ∧
      ((Nodes.empty.add ((1 : ℚ), (2 : ℚ)) 7).2).number ((1 : ℚ), (2 : ℚ))
        = Nodes.empty.itsData.length + 1 ∧
      ((Nodes.empty.add ((1 : ℚ), (2 : ℚ)) 7).2).id ((1 : ℚ), (2 : ℚ)) = 7) ∧
    (∀ v, Nodes.empty.find ((1 : ℚ), (2 : ℚ)) = some v →
      Nodes.empty.add ((1 : ℚ), (2 : ℚ)) 9 = (v.1, Nodes.empty)) ∧
    (∀ q jq, q ≠ ((1 : ℚ), (2 : ℚ)) →
      ((Nodes.empty.add q jq).2).number ((1 : ℚ), (2 : ℚ))
        = Nodes.empty.number ((1 : ℚ), (2 : ℚ)) ∧
      ((Nodes.empty.add q jq).2).id ((1 : ℚ), (2 : ℚ))
        = Nodes.empty.id ((1 : ℚ), (2 : ℚ))) :=
  nodes_add_first_seen Nodes.empty ((1 : ℚ), (2 : ℚ)) 7 9

/-- Helper: along any reachable registry the ordinal vector and the map have
the same length. -/
theorem Nodes.length_invariant (calls : List (Pt × ℤ)) (n : Nodes)
    (h : n.itsOrderedData.length = n.itsData.length) :
    (n.addAll calls).itsOrderedData.length = (n.addAll calls).itsData.length := by
  induction calls generalizing n with
  | nil => exact h
  | cons c t ih =>
    show ((n.add c.1 c.2).2.addAll t).itsOrderedData.length
        = ((n.add c.1 c.2).2.addAll t).itsData.length
    apply ih
    unfold Nodes.add
    cases hf : n.find c.1 with
    | some v => simpa using h
    | none => simp [h]

/-- C7: on any reachable registry, `number` and `id` return 0 for a point
never added, and `point` returns the sentinel `(0,0)` for any ordinal ≤ 0 or
greater than the number of registered points; all three are total functions. -/
theorem nodes_sentinels (calls : List (Pt × ℤ)) :
    (∀ pt, (Nodes.empty.addAll calls).find pt = none →
      (Nodes.empty.addAll calls).number pt = 0 ∧
      (Nodes.empty.addAll calls).id pt = 0) ∧
    (∀ k : ℤ, k ≤ 0 ∨ k > ((Nodes.empty.addAll calls).itsData.length : ℤ) →
      (Nodes.empty.addAll calls).point k = (0, 0)) := by
  constructor
  · intro pt hnone
    unfold Nodes.number Nodes.id
    rw [hnone]
    exact ⟨rfl, rfl⟩
  · intro k hk
    have hlen : (Nodes.empty.addAll calls).itsOrderedData.length
        = (Nodes.empty.addAll calls).itsData.length :=
      Nodes.length_invariant calls Nodes.empty rfl
    unfold Nodes.point
    rw [hlen]
    simp [hk]


/-- Helper: closing an already closed ring changes nothing. -/
theorem polyClose_idem (l : List Pt) : polyClose (polyClose l) = polyClose l := by
  cases l with
  | nil => rfl
  | cons x xs =>
    by_cases h : (x :: xs).getLastD x = x
    · simp only [polyClose, if_neg (not_not_intro h)]
    · have h2 : ((x :: (xs ++ [x])) : List Pt).getLastD x = x := by
        have := List.getLastD_concat x x (x :: xs)
        simpa using this
      simp only [polyClose, List.cons_append, if_pos h, if_neg (not_not_intro h2)]

/-- Helper: closing cannot shorten the ring. -/
theorem length_le_polyClose (l : List Pt) : l.length ≤ (polyClose l).length := by
  cases l with
  | nil => simp [polyClose]
  | cons x xs =>
    by_cases h : (x :: xs).getLastD x = x
    · simp only [polyClose, if_neg (not_not_intro h)]
      exact le_refl _
    · simp only [polyClose, if_pos h, List.length_append, List.length_cons]
      omega

/-- C8: `Polygon::close` appends exactly one copy of the first point when the
ring is nonempty and open (all stored elements and their order retained), is
the identity on an empty or already-closed ring, and is idempotent. -/
theorem polygon_close_minimal (p : Polygon) :
    (∀ x xs, p.itsData = x :: xs →
      ((x :: xs).getLastD x ≠ x → (p.close).itsData = p.itsData ++ [x]) ∧
      ((x :: xs).getLastD x = x → (p.close).itsData = p.itsData)) ∧
    (p.itsData = [] → (p.close).itsData = []) ∧
    p.close.close = p.close := by
  refine ⟨?_, ?_, ?_⟩
  · intro x xs hd
    constructor <;> intro h
    · simp only [Polygon.close, hd, polyClose, if_pos h]
    · simp only [Polygon.close, hd, polyClose, if_neg (not_not_intro h)]
  · intro hd
    simp [Polygon.close, hd, polyClose]
  · show Polygon.mk (polyClose (polyClose p.itsData)) = Polygon.mk (polyClose p.itsData)
    rw [polyClose_idem]

/-- Helper: the x-intersection used by the ray test is the same for an edge
traversed in either direction. -/
theorem rayInterp_symm (y x1 y1 x2 y2 : ℚ) (hy : y1 ≠ y2) :
    (y - y1) * (x2 - x1) / (y2 - y1) + x1 = (y - y2) * (x1 - x2) / (y1 - y2) + x2 := by
  have h1 : y2 - y1 ≠ 0 := sub_ne_zero.mpr (Ne.symm hy)
  have h2 : y1 - y2 ≠ 0 := sub_ne_zero.mpr hy
  field_simp
  ring

/-- Helper: the per-edge parity condition is direction-independent. -/
theorem rayToggle_symm (x y x1 y1 x2 y2 : ℚ) :
    rayToggle x y x1 y1 x2 y2 = rayToggle x y x2 y2 x1 y1 := by
  have dir : ∀ a1 b1 a2 b2 : ℚ,
      (y > min b1 b2 ∧ y ≤ max b1 b2 ∧ x ≤ max a1 a2 ∧ b1 ≠ b2 ∧
        (a1 = a2 ∨ x < (y - b1) * (a2 - a1) / (b2 - b1) + a1)) →
      (y > min b2 b1 ∧ y ≤ max b2 b1 ∧ x ≤ max a2 a1 ∧ b2 ≠ b1 ∧
        (a2 = a1 ∨ x < (y - b2) * (a1 - a2) / (b1 - b2) + a2)) := by
    rintro a1 b1 a2 b2 ⟨h1, h2, h3, h4, h5⟩
    refine ⟨by rwa [min_comm], by rwa [max_comm], by rwa [max_comm], h4.symm, ?_⟩
    rcases h5 with h5 | h5
    · exact Or.inl h5.symm
    · right
      rw [← rayInterp_symm y a1 b1 a2 b2 h4]
      exact h5
  unfold rayToggle
  rw [decide_eq_decide]
  exact ⟨dir x1 y1 x2 y2, dir x2 y2 x1 y1⟩

/-- C6: any polygon whose stored ring has ≤ 2 points reports every query
point as outside, including the two-distinct-point case where closing first
grows the ring to 3 points. -/
theorem polygon_isInside_degenerate (p : Polygon) (pt : Pt)
    (h : p.itsData.length ≤ 2) : p.isInside pt = false := by
  rcases hl : p.itsData with _ | ⟨a, _ | ⟨b, t⟩⟩
  · simp [Polygon.isInside, Polygon.close, hl, polyClose]
  · simp [Polygon.isInside, Polygon.close, hl, polyClose]
  · have ht : t = [] := by
      rw [hl] at h
      simp only [List.length_cons] at h
      exact List.length_eq_zero.mp (by omega)
    subst ht
    by_cases hab : b = a
    · simp [Polygon.isInside, Polygon.close, hl, polyClose, hab]
    · have hcl : polyClose [a, b] = [a, b, a] := by
        simp [polyClose, hab]
      have hsym : rayToggle pt.1 pt.2 b.1 b.2 a.1 a.2
          = rayToggle pt.1 pt.2 a.1 a.2 b.1 b.2 :=
        (rayToggle_symm pt.1 pt.2 a.1 a.2 b.1 b.2).symm
      simp only [Polygon.isInside, Polygon.close, hl, hcl]
      rw [if_neg (by simp)]
      simp only [rayLoop, hsym]
      cases hc : rayToggle pt.1 pt.2 a.1 a.2 b.1 b.2 <;> simp [hc]

/-- Witness for C6 on a concrete two-point ring. -/
theorem polygon_isInside_degenerate_witness :
    (Polygon.mk [((0 : ℚ), (0 : ℚ)), ((2 : ℚ), (0 : ℚ))]).itsData.length ≤ 2 ∧
    (Polygon.mk [((0 : ℚ), (0 : ℚ)), ((2 : ℚ), (0 : ℚ))]).isInside ((1 : ℚ), (0 : ℚ)) = false :=
  ⟨by decide,
    polygon_isInside_degenerate (Polygon.mk [((0 : ℚ), (0 : ℚ)), ((2 : ℚ), (0 : ℚ))])
      ((1 : ℚ), (0 : ℚ)) (by decide)⟩

/-- C5: `area` is the shoelace formula on the closed ring (unit square gives
exactly 1), and any ring of ≤ 2 stored points has area 0. -/
theorem polygon_area_shoelace :
    (Polygon.mk [((0 : ℚ), (0 : ℚ)), (1, 0), (1, 1), (0, 1)]).area = 1 ∧
    (∀ p : Polygon, p.itsData.length ≤ 2 → p.area = 0) ∧
    (∀ p : Polygon, 3 ≤ ((p.close).itsData).length →
      p.area = |(1/2 : ℚ) * shoeSum ((p.close).itsData)|) := by
  refine ⟨?_, ?_, ?_⟩
  · show Polygon.area _ = 1
    norm_num [Polygon.area, Polygon.close, polyClose, shoeSum]
  · intro p h
    rcases hl : p.itsData with _ | ⟨a, _ | ⟨b, t⟩⟩
    · simp [Polygon.area, Polygon.close, hl, polyClose]
    · simp [Polygon.area, Polygon.close, hl, polyClose]
    · have ht : t = [] := by
        rw [hl] at h
        simp only [List.length_cons] at h
        exact List.length_eq_zero.mp (by omega)
      subst ht
      by_cases hab : b = a
      · simp [Polygon.area, Polygon.close, hl, polyClose, hab]
      · have hcl : polyClose [a, b] = [a, b, a] := by
          simp [polyClose, hab]
        have hsum : shoeSum [a, b, a] = 0 := by
          simp only [shoeSum]
          ring
        simp [Polygon.area, Polygon.close, hl, hcl, hsum]
  · intro p h3
    simp only [Polygon.area]
    rw [if_neg (by omega)]

/-- Witness for C5 at concrete rings. -/
theorem polygon_area_shoelace_witness :
    (Polygon.mk [((3 : ℚ), (0 : ℚ)), ((3 : ℚ), (4 : ℚ))]).itsData.length ≤ 2 ∧
    (Polygon.mk [((3 : ℚ), (0 : ℚ)), ((3 : ℚ), (4 : ℚ))]).area = 0 ∧
    3 ≤ (((Polygon.mk [((0 : ℚ), (0 : ℚ)), (1, 0), (0, 1)]).close).itsData).length ∧
    (Polygon.mk [((0 : ℚ), (0 : ℚ)), (1, 0), (0, 1)]).area
      = |(1/2 : ℚ) * shoeSum (((Polygon.mk [((0 : ℚ), (0 : ℚ)), (1, 0), (0, 1)]).close).itsData)| :=
  ⟨by decide,
    polygon_area_shoelace.2.1 (Polygon.mk [((3 : ℚ), (0 : ℚ)), ((3 : ℚ), (4 : ℚ))]) (by decide),
    by decide,
    polygon_area_shoelace.2.2 (Polygon.mk [((0 : ℚ), (0 : ℚ)), (1, 0), (0, 1)]) (by decide)⟩

/-- Witness for C8 on a concrete open ring. -/
theorem polygon_close_minimal_witness :
    ((0 : ℚ), (0 : ℚ)) ≠ ((0 : ℚ), (0 : ℚ)) ∨
    ((Polygon.mk [((0 : ℚ), (0 : ℚ)), ((1 : ℚ), (0 : ℚ))]).close).itsData
      = [((0 : ℚ), (0 : ℚ)), ((1 : ℚ), (0 : ℚ))] ++ [((0 : ℚ), (0 : ℚ))] :=
  Or.inr
    (((polygon_close_minimal (Polygon.mk [((0 : ℚ), (0 : ℚ)), ((1 : ℚ), (0 : ℚ))])).1
      ((0 : ℚ), (0 : ℚ)) [((1 : ℚ), (0 : ℚ))] rfl).1 (by decide))

/-- Witness for C7 at a concrete registry. -/
theorem nodes_sentinels_witness :
    ((Nodes.empty.addAll [(((3 : ℚ), (4 : ℚ)), 5)]).find ((9 : ℚ), (9 : ℚ)) = none →
      (Nodes.empty.addAll [(((3 : ℚ), (4 : ℚ)), 5)]).number ((9 : ℚ), (9 : ℚ)) = 0 ∧
      (Nodes.empty.addAll [(((3 : ℚ), (4 : ℚ)), 5)]).id ((9 : ℚ), (9 : ℚ)) = 0) ∧
    ((-1 : ℤ) ≤ 0 ∨ (-1 : ℤ) > ((Nodes.empty.addAll [(((3 : ℚ), (4 : ℚ)), 5)]).itsData.length : ℤ)) ∧
    (Nodes.empty.addAll [(((3 : ℚ), (4 : ℚ)), 5)]).point (-1) = (0, 0) := by
  have h := nodes_sentinels [(((3 : ℚ), (4 : ℚ)), 5)]
  exact ⟨h.1 ((9 : ℚ), (9 : ℚ)), Or.inl (by decide),
    h.2 (-1) (Or.inl (by decide))⟩

/-- Helper: a point returned by the scanning loop passed the `isInside`
check on the closed ring. -/
theorem scanTriangles_sound (c : List Pt) (skip : ℕ → Bool) (draws : ℕ → ℚ × ℚ) :
    ∀ fuel i iter q k, scanTriangles c skip draws fuel i iter = (some q, k) →
      (Polygon.mk c).isInside q = true := by
  intro fuel
  induction fuel with
  | zero =>
    intro i iter q k h
    simp [scanTriangles] at h
  | succ fuel ih =>
    intro i iter q k h
    rw [scanTriangles] at h
    by_cases h1 : i ≥ c.length - 2
    · rw [if_pos h1] at h
      exact ih 0 iter q k h
    · rw [if_neg h1] at h
      simp only at h
      by_cases h2 : iter + 1 > 10000
      · rw [if_pos h2] at h
        simp at h
      · rw [if_neg h2] at h
        by_cases h3 : skip (iter + 1)
        · rw [if_pos h3] at h
          exact ih (i + 1) (iter + 1) q k h
        · rw [if_neg h3] at h
          by_cases h4 : (Polygon.mk c).isInside
              (interpPoint (c.getD i (0, 0)) (c.getD (i + 1) (0, 0))
                (c.getD (i + 2) (0, 0)) (draws (iter + 1)).1 (draws (iter + 1)).2)
          · rw [if_pos h4] at h
            injection h with h5 h6
            injection h5 with h7
            rw [← h7]
            exact h4
          · rw [if_neg h4] at h
            exact ih (i + 1) (iter + 1) q k h

/-- C2: if `someInsidePoint` returns a point on a ring of ≥ 3 stored points
(for any shape-test and random oracles), that point satisfies `isInside`. -/
theorem someInsidePoint_sound (p : Polygon) (skip : ℕ → Bool) (draws : ℕ → ℚ × ℚ)
    (q : Pt) (h3 : 3 ≤ p.itsData.length)
    (hres : (p.someInsidePoint skip draws).1 = some q) :
    p.isInside q = true := by
  have hlen : 3 ≤ ((p.close).itsData).length :=
    le_trans h3 (length_le_polyClose p.itsData)
  simp only [Polygon.someInsidePoint] at hres
  rw [if_neg (by omega)] at hres
  have hpair : scanTriangles ((p.close).itsData) skip draws 30000 0 0
      = (some q, (scanTriangles ((p.close).itsData) skip draws 30000 0 0).2) := by
    rw [← hres]
  have hq : (Polygon.mk ((p.close).itsData)).isInside q = true :=
    scanTriangles_sound _ skip draws 30000 0 0 q _ hpair
  have heq : (Polygon.mk ((p.close).itsData)).isInside q = p.isInside q := by
    simp only [Polygon.isInside, Polygon.close, polyClose_idem]
  rw [← heq]
  exact hq

/-- Witness for C2: a concrete triangle, no skips, fixed central draws. -/
theorem someInsidePoint_sound_witness :
    3 ≤ (Polygon.mk [((0 : ℚ), (0 : ℚ)), (4, 0), (0, 4)]).itsData.length ∧
    ((Polygon.mk [((0 : ℚ), (0 : ℚ)), (4, 0), (0, 4)]).someInsidePoint
      (fun _ => false) (fun _ => (1/2, 1/2))).1 = some ((2 : ℚ), (1 : ℚ)) ∧
    (Polygon.mk [((0 : ℚ), (0 : ℚ)), (4, 0), (0, 4)]).isInside ((2 : ℚ), (1 : ℚ)) = true := by
  have hcl : polyClose [((0 : ℚ), (0 : ℚ)), (4, 0), (0, 4)]
      = [((0 : ℚ), (0 : ℚ)), (4, 0), (0, 4), (0, 0)] := by
    norm_num [polyClose]
  have hint : interpPoint ((0 : ℚ), (0 : ℚ)) (4, 0) (0, 4) (1/2) (1/2)
      = ((2 : ℚ), (1 : ℚ)) := by
    norm_num [interpPoint]
  have ht1 : rayToggle 2 1 0 0 4 0 = false := by
    norm_num [rayToggle]
  have ht2 : rayToggle 2 1 4 0 0 4 = true := by
    norm_num [rayToggle]
  have ht3 : rayToggle 2 1 0 4 0 0 = false := by
    norm_num [rayToggle, min_def, max_def]
  have hin : (Polygon.mk [((0 : ℚ), (0 : ℚ)), (4, 0), (0, 4), (0, 0)]).isInside
      ((2 : ℚ), (1 : ℚ)) = true := by
    have hcl2 : polyClose [((0 : ℚ), (0 : ℚ)), (4, 0), (0, 4), (0, 0)]
        = [((0 : ℚ), (0 : ℚ)), (4, 0), (0, 4), (0, 0)] := by
      norm_num [polyClose]
    simp [Polygon.isInside, Polygon.close, hcl2, rayLoop, ht1, ht2, ht3,
      -Prod.mk_zero_zero, -Prod.mk_one_one]
  have hres : ((Polygon.mk [((0 : ℚ), (0 : ℚ)), (4, 0), (0, 4)]).someInsidePoint
      (fun _ => false) (fun _ => (1/2, 1/2))).1 = some ((2 : ℚ), (1 : ℚ)) := by
    simp only [Polygon.someInsidePoint, Polygon.close, hcl]
    rw [if_neg (by norm_num)]
    rw [scanTriangles]
    rw [if_neg (by norm_num)]
    simp only [Bool.false_eq_true, if_false, Nat.reduceAdd]
    rw [if_neg (by norm_num)]
    simp only [List.getD_cons_zero, List.getD_cons_succ, hint, hin, if_true]
  exact ⟨by decide, hres,
    someInsidePoint_sound (Polygon.mk [((0 : ℚ), (0 : ℚ)), (4, 0), (0, 4)])
      (fun _ => false) (fun _ => (1/2, 1/2)) ((2 : ℚ), (1 : ℚ)) (by decide) hres⟩

/-- C10: on a ring that closes to fewer than 3 points, `someInsidePoint`
returns the sentinel `(0,0)` with zero iterations consumed and no abort, and
the sentinel does not satisfy `isInside` (which is false on such rings). -/
theorem someInsidePoint_degenerate (p : Polygon) (skip : ℕ → Bool)
    (draws : ℕ → ℚ × ℚ) (h : ((p.close).itsData).length < 3) :
    p.someInsidePoint skip draws = (some (0, 0), 0) ∧
    p.isInside (0, 0) = false := by
  constructor
  · simp only [Polygon.someInsidePoint]
    rw [if_pos h]
  · simp only [Polygon.isInside]
    rw [if_pos (by omega)]

/-- Witness for C10 on a one-point ring. -/
theorem someInsidePoint_degenerate_witness :
    ((Polygon.mk [((5 : ℚ), (5 : ℚ))]).close).itsData.length < 3 ∧
    (Polygon.mk [((5 : ℚ), (5 : ℚ))]).someInsidePoint (fun _ => true)
      (fun _ => (0, 0)) = (some (0, 0), 0) ∧
    (Polygon.mk [((5 : ℚ), (5 : ℚ))]).isInside (0, 0) = false := by
  have h := someInsidePoint_degenerate (Polygon.mk [((5 : ℚ), (5 : ℚ))])
    (fun _ => true) (fun _ => (0, 0)) (by decide)
  exact ⟨by decide, h.1, h.2⟩

/-- C4: `add` rejects a candidate whose projected point lies outside the
bounding box, returning `false` with no state change at all; otherwise it
returns `true`, stores the candidate keyed by the value (negated iff the
negate flag is set), and invalidates the cached reduction, leaving every
other component of the state untouched. -/
theorem selector_add_spec (s : PointSelector) (theID : ℤ)
    (theValue theLon theLat : ℚ) :
    (((s.itsArea (theLon, theLat)).1 < s.itsX1 ∨ (s.itsArea (theLon, theLat)).1 > s.itsX2 ∨
      (s.itsArea (theLon, theLat)).2 < s.itsY1 ∨ (s.itsArea (theLon, theLat)).2 > s.itsY2) →
      s.add theID theValue theLon theLat = (false, s)) ∧
    (¬((s.itsArea (theLon, theLat)).1 < s.itsX1 ∨ (s.itsArea (theLon, theLat)).1 > s.itsX2 ∨
      (s.itsArea (theLon, theLat)).2 < s.itsY1 ∨ (s.itsArea (theLon, theLat)).2 > s.itsY2) →
      (s.add theID theValue theLon theLat).1 = true ∧
      (s.add theID theValue theLon theLat).2.itsCandidates
        = insertCand s.itsCandidates
            (if s.itsNegateFlag then -theValue else theValue)
            ⟨theID, (s.itsArea (theLon, theLat)).1, (s.itsArea (theLon, theLat)).2⟩ ∧
      (s.add theID theValue theLon theLat).2.itsReduced = false ∧
      (s.add theID theValue theLon theLat).2.itsResults = [] ∧
      (s.add theID theValue theLon theLat).2.itsArea = s.itsArea ∧
      (s.add theID theValue theLon theLat).2.itsNegateFlag = s.itsNegateFlag ∧
      (s.add theID theValue theLon theLat).2.itsMinDistance = s.itsMinDistance ∧
      (s.add theID theValue theLon theLat).2.itsX1 = s.itsX1 ∧
      (s.add theID theValue theLon theLat).2.itsY1 = s.itsY1 ∧
      (s.add theID theValue theLon theLat).2.itsX2 = s.itsX2 ∧
      (s.add theID theValue theLon theLat).2.itsY2 = s.itsY2) := by
  constructor
  · intro hb
    simp only [PointSelector.add]
    rw [if_pos hb]
  · intro hb
    simp only [PointSelector.add]
    rw [if_neg hb]
    cases hf : s.itsNegateFlag <;> simp [hf]

/-- Witness for C4: identity projection, box `[0,100]²`; a projected point
outside the box is rejected statelessly, one inside is accepted. -/
theorem selector_add_spec_witness :
    (PointSelector.mk (fun xy => xy) false 10 0 0 100 100 true [] []).add 1 5 200 50
      = (false, PointSelector.mk (fun xy => xy) false 10 0 0 100 100 true [] []) ∧
    ((PointSelector.mk (fun xy => xy) false 10 0 0 100 100 true [] []).add 2 7 50 60).1
      = true ∧
    ((PointSelector.mk (fun xy => xy) false 10 0 0 100 100 true [] []).add 2 7 50 60).2.itsReduced
      = false ∧
    ((PointSelector.mk (fun xy => xy) false 10 0 0 100 100 true [] []).add 2 7 50 60).2.itsCandidates
      = insertCand [] (if false then -(7 : ℚ) else 7) ⟨2, 50, 60⟩ := by
  have h1 := (selector_add_spec
    (PointSelector.mk (fun xy => xy) false 10 0 0 100 100 true [] []) 1 5 200 50).1
    (by norm_num)
  have h2 := (selector_add_spec
    (PointSelector.mk (fun xy => xy) false 10 0 0 100 100 true [] []) 2 7 50 60).2
    (by norm_num)
  exact ⟨h1, h2.1, h2.2.2.1, h2.2.1⟩

/-- Helper: `add` never changes the configured minimum distance. -/
theorem PointSelector.add_minDistance (s : PointSelector) (i : ℤ)
    (v lon lat : ℚ) : ((s.add i v lon lat).2).itsMinDistance = s.itsMinDistance := by
  simp only [PointSelector.add]
  by_cases hb : ((s.itsArea (lon, lat)).1 < s.itsX1 ∨ (s.itsArea (lon, lat)).1 > s.itsX2 ∨
      (s.itsArea (lon, lat)).2 < s.itsY1 ∨ (s.itsArea (lon, lat)).2 > s.itsY2)
  · rw [if_pos hb]
  · rw [if_neg hb]

/-- Helper: `addAll` never changes the configured minimum distance. -/
theorem PointSelector.addAll_minDistance :
    ∀ (calls : List (ℤ × ℚ × ℚ × ℚ)) (s : PointSelector),
      ((s.addAll calls)).itsMinDistance = s.itsMinDistance := by
  intro calls
  induction calls with
  | nil => intro s; rfl
  | cons c t ih =>
    intro s
    show ((((s.add c.1 c.2.1 c.2.2.1 c.2.2.2).2)).addAll t).itsMinDistance = _
    rw [ih, PointSelector.add_minDistance]

/-- Helper: members of `insertCand l k pd` are members of `l` or the new
entry. -/
theorem mem_insertCand :
    ∀ (l : List (ℚ × PointData)) (k : ℚ) (pd : PointData) (x : ℚ × PointData),
      x ∈ insertCand l k pd → x ∈ l ∨ x = (k, pd) := by
  intro l
  induction l with
  | nil =>
    intro k pd x hx
    rw [insertCand, List.mem_singleton] at hx
    exact Or.inr hx
  | cons c t ih =>
    intro k pd x hx
    rw [insertCand] at hx
    by_cases hk : k > c.1
    · rw [if_pos hk] at hx
      rcases List.mem_cons.mp hx with rfl | hx2
      · exact Or.inr rfl
      · exact Or.inl hx2
    · rw [if_neg hk] at hx
      rcases List.mem_cons.mp hx with rfl | hx2
      · exact Or.inl (List.mem_cons_self _ _)
      · rcases ih k pd x hx2 with h2 | h2
        · exact Or.inl (List.mem_cons_of_mem _ h2)
        · exact Or.inr h2

/-- Helper: `insertCand` preserves the descending key order of the
candidate multimap. -/
theorem insertCand_sorted (k : ℚ) (pd : PointData) :
    ∀ l : List (ℚ × PointData), l.Pairwise (fun a b => b.1 ≤ a.1) →
      (insertCand l k pd).Pairwise (fun a b => b.1 ≤ a.1) := by
  intro l
  induction l with
  | nil =>
    intro h
    rw [insertCand]
    exact List.pairwise_singleton _ _
  | cons c t ih =>
    intro h
    rw [insertCand]
    obtain ⟨h1, h2⟩ := List.pairwise_cons.mp h
    by_cases hk : k > c.1
    · rw [if_pos hk]
      refine List.Pairwise.cons ?_ h
      intro b hb
      rcases List.mem_cons.mp hb with rfl | hbt
      · exact le_of_lt hk
      · exact le_trans (h1 b hbt) (le_of_lt hk)
    · rw [if_neg hk]
      refine List.Pairwise.cons ?_ (ih h2)
      intro b hb
      rcases mem_insertCand t k pd b hb with hbt | rfl
      · exact h1 b hbt
      · exact not_lt.mp hk

/-- Helper: `add` keeps the candidate multimap in descending key order. -/
theorem PointSelector.add_sorted (s : PointSelector) (i : ℤ) (v lon lat : ℚ)
    (hs : s.itsCandidates.Pairwise (fun a b => b.1 ≤ a.1)) :
    ((s.add i v lon lat).2).itsCandidates.Pairwise (fun a b => b.1 ≤ a.1) := by
  simp only [PointSelector.add]
  by_cases hb : ((s.itsArea (lon, lat)).1 < s.itsX1 ∨ (s.itsArea (lon, lat)).1 > s.itsX2 ∨
      (s.itsArea (lon, lat)).2 < s.itsY1 ∨ (s.itsArea (lon, lat)).2 > s.itsY2)
  · rw [if_pos hb]
    exact hs
  · rw [if_neg hb]
    cases hf : s.itsNegateFlag <;>
      simp only [hf, if_true, if_false, Bool.false_eq_true] <;>
      exact insertCand_sorted _ _ _ hs

/-- Helper: `addAll` keeps the candidate multimap in descending key order. -/
theorem PointSelector.addAll_sorted :
    ∀ (calls : List (ℤ × ℚ × ℚ × ℚ)) (s : PointSelector),
      s.itsCandidates.Pairwise (fun a b => b.1 ≤ a.1) →
      ((s.addAll calls)).itsCandidates.Pairwise (fun a b => b.1 ≤ a.1) := by
  intro calls
  induction calls with
  | nil => intro s hs; exact hs
  | cons c t ih =>
    intro s hs
    exact ih _ (PointSelector.add_sorted s c.1 c.2.1 c.2.2.1 c.2.2.2 hs)

/-- Helper: the reduction loop keeps all accepted points pairwise farther
apart than the minimum distance (in squared form). -/
theorem reduceGo_pairwise (minD : ℚ) :
    ∀ (cands : List (ℚ × PointData)) (acc : List PointData),
      acc.Pairwise (fun a b => minD * minD < distSq (a.x, a.y) (b.x, b.y)) →
      (reduceGo minD cands acc).Pairwise
        (fun a b => minD * minD < distSq (a.x, a.y) (b.x, b.y)) := by
  intro cands
  induction cands with
  | nil =>
    intro acc h
    rw [reduceGo]
    exact h
  | cons c t ih =>
    intro acc h
    rw [reduceGo]
    by_cases hn : nearAny acc c.2.x c.2.y minD
    · rw [if_pos hn]
      exact ih acc h
    · rw [if_neg hn]
      apply ih
      rw [List.pairwise_append]
      refine ⟨h, List.pairwise_singleton _ _, ?_⟩
      intro a ha b hb
      rw [List.mem_singleton] at hb
      subst hb
      by_contra hcon
      have hle : distSq (a.x, a.y) (c.2.x, c.2.y) ≤ minD * minD := not_lt.mp hcon
      exact hn (List.any_eq_true.mpr ⟨a, ha, decide_eq_true hle⟩)

/-- C1: after any sequence of `add` calls on a selector whose candidate
store starts empty and whose configured minimum distance is nonnegative,
the reduction walks the candidates in descending priority order (the store
is kept sorted), any two distinct accepted results are at Euclidean plane
distance ≥ the minimum distance, and an invalidated cache is rebuilt as
exactly the accepted ids in acceptance order. -/
theorem selector_min_distance (s0 : PointSelector)
    (calls : List (ℤ × ℚ × ℚ × ℚ)) (hmin : 0 ≤ s0.itsMinDistance)
    (hempty : s0.itsCandidates = []) :
    ((s0.addAll calls)).itsCandidates.Pairwise (fun a b => b.1 ≤ a.1) ∧
    ((s0.addAll calls)).accepted.Pairwise (fun a b =>
      ((s0.itsMinDistance : ℚ) : ℝ)
        ≤ Real.sqrt ((distSq (a.x, a.y) (b.x, b.y) : ℚ) : ℝ)) ∧
    (((s0.addAll calls)).itsReduced = false →
      (((s0.addAll calls)).reduce).itsResults
        = ((s0.addAll calls)).accepted.map PointData.id) := by
  have hsorted := PointSelector.addAll_sorted calls s0
    (by rw [hempty]; exact List.Pairwise.nil)
  have hmd := PointSelector.addAll_minDistance calls s0
  refine ⟨hsorted, ?_, ?_⟩
  · have hpair := reduceGo_pairwise ((s0.addAll calls)).itsMinDistance
      ((s0.addAll calls)).itsCandidates [] List.Pairwise.nil
    rw [hmd] at hpair
    have haccept : ((s0.addAll calls)).accepted
        = reduceGo s0.itsMinDistance ((s0.addAll calls)).itsCandidates [] := by
      unfold PointSelector.accepted
      rw [hmd]
    rw [haccept]
    refine List.Pairwise.imp ?_ hpair
    intro a b hab
    have hq : (s0.itsMinDistance * s0.itsMinDistance : ℚ)
        ≤ distSq (a.x, a.y) (b.x, b.y) := le_of_lt hab
    have hr : ((s0.itsMinDistance : ℝ)) * (s0.itsMinDistance : ℝ)
        ≤ ((distSq (a.x, a.y) (b.x, b.y) : ℚ) : ℝ) := by exact_mod_cast hq
    have hmr : (0 : ℝ) ≤ (s0.itsMinDistance : ℝ) := by exact_mod_cast hmin
    calc ((s0.itsMinDistance : ℚ) : ℝ)
        = Real.sqrt ((s0.itsMinDistance : ℝ) * (s0.itsMinDistance : ℝ)) :=
          (Real.sqrt_mul_self hmr).symm
      _ ≤ Real.sqrt ((distSq (a.x, a.y) (b.x, b.y) : ℚ) : ℝ) :=
          Real.sqrt_le_sqrt hr
  · intro hred
    unfold PointSelector.reduce
    rw [if_neg (by simp [hred])]

/-- Witness for C1: identity projection, minimum distance 10, two calls. -/
theorem selector_min_distance_witness :
    ((((PointSelector.mk (fun xy => xy) false 10 0 0 100 100 true [] [])).addAll
        [(1, 5, 10, 10), (2, 7, 12, 10)]).itsCandidates.Pairwise
          (fun a b => b.1 ≤ a.1)) ∧
    ((((PointSelector.mk (fun xy => xy) false 10 0 0 100 100 true [] [])).addAll
        [(1, 5, 10, 10), (2, 7, 12, 10)]).accepted.Pairwise (fun a b =>
      (((PointSelector.mk (fun xy => xy) false 10 0 0 100 100 true [] []).itsMinDistance : ℚ) : ℝ)
        ≤ Real.sqrt ((distSq (a.x, a.y) (b.x, b.y) : ℚ) : ℝ))) ∧
    ((((PointSelector.mk (fun xy => xy) false 10 0 0 100 100 true [] [])).addAll
        [(1, 5, 10, 10), (2, 7, 12, 10)]).itsReduced = false →
      ((((PointSelector.mk (fun xy => xy) false 10 0 0 100 100 true [] [])).addAll
        [(1, 5, 10, 10), (2, 7, 12, 10)]).reduce).itsResults
        = (((PointSelector.mk (fun xy => xy) false 10 0 0 100 100 true [] [])).addAll
            [(1, 5, 10, 10), (2, 7, 12, 10)]).accepted.map PointData.id) :=
  selector_min_distance (PointSelector.mk (fun xy => xy) false 10 0 0 100 100 true [] [])
    [(1, 5, 10, 10), (2, 7, 12, 10)] (by norm_num) rfl
